import Mathlib

/-!
Verification of the zim notebook index engine (`zim/notebook/index/__init__.py`)
against its natural-language specification.

The development shallowly embeds the relevant parts of the source:

* the `pages` table rows and the `zim_index` key/value table;
* the schema-level primitives of `IndexInternal` (`get_property`, `set_property`,
  `set_page_exists`, `check_existance`, `delete_page`, `check_pagelist`,
  `update_parent`);
* the `TreeIndexer` work loop (`do_update_iter`) with its row-selection query
  and its per-dispatch exception containment;
* the commit cadence of `DBChangeContext` / `TreeIndexer.__iter__` /
  `Index.update`;
* the `Index` facade entry points needed by the claims (`probably_uptodate`,
  `on_delete_page`).

SQL statements are embedded by their sqlite semantics over a `List Row`
(a `SELECT ... ORDER BY k LIMIT 1` becomes: sort the filtered list by `k`
and take the head; an `UPDATE ... WHERE id=?` becomes a pointwise map).
Python exceptions are embedded with `Except String`.  Store I/O (files,
folders, mtimes) is abstracted by explicit parameters, since the claims only
constrain how the indexer reacts to the values the store returns.

Definitions that embed code of this repository living outside the provided
source (the `pages`/`base` modules: `PAGE_EXISTS_*` constants, `ROOT_ID`,
`IndexPathRow.hascontent`, `lookup_by_pagename`, `walk_bottomup`) carry a
doc comment starting with `Modelled from the spec:`.
-/

namespace ZimIndex

/-! ## Constants from the source -/

/-- `DB_VERSION = '0.6'` from the source. -/
def DB_VERSION : String := "0.6"

/-- `INDEX_UPTODATE = 0`: no update needed (row not in the work queue). -/
def INDEX_UPTODATE : Nat := 0

/-- `INDEX_NEED_UPDATE_CHILDREN = 1` (reserved). -/
def INDEX_NEED_UPDATE_CHILDREN : Nat := 1

/-- `INDEX_NEED_UPDATE_PAGE = 2` (reserved). -/
def INDEX_NEED_UPDATE_PAGE : Nat := 2

/-- `INDEX_CHECK_TREE = 3`. -/
def INDEX_CHECK_TREE : Nat := 3

/-- `INDEX_CHECK_CHILDREN = 4`. -/
def INDEX_CHECK_CHILDREN : Nat := 4

/-- `INDEX_CHECK_PAGE = 5`. -/
def INDEX_CHECK_PAGE : Nat := 5

/-- Modelled from the spec: `PAGE_EXISTS_UNCERTAIN` lives in the pages module
(not in the provided source).  The spec fixes the three-valued ordering
`UNCERTAIN (0) < AS_LINK < HAS_CONTENT`. -/
def PAGE_EXISTS_UNCERTAIN : Nat := 0

/-- Modelled from the spec: `PAGE_EXISTS_AS_LINK`, the middle existence level
(placeholder kept only because some other page links to it). -/
def PAGE_EXISTS_AS_LINK : Nat := 1

/-- Modelled from the spec: `PAGE_EXISTS_HAS_CONTENT`, the highest existence
level (backing file present in the store). -/
def PAGE_EXISTS_HAS_CONTENT : Nat := 2

/-- Modelled from the spec: `ROOT_ID`, the well-known identity of the ROOT
row of the `pages` table (parents are inserted before children, so the root
has the first id). -/
def ROOT_ID : Nat := 1

/-! ## The `pages` table -/

/-- One row of the `pages` table, together with the path of the page it
describes (an `IndexPathRow` in the source knows both its database row and
its full colon-separated name).  Timestamps are abstracted to strings, as
they are only ever stored and compared. -/
structure Row where
  id : Nat
  parent : Nat
  basename : String
  path : List String
  page_exists : Nat
  content_etag : Option String
  children_etag : Option String
  ctime : Option String
  mtime : Option String
  n_children : Nat
  needscheck : Nat
  childseen : Nat
deriving DecidableEq, Repr

/-- `IndexPath.isroot`: the root page.  In the database the root page is the
row with the well-known `ROOT_ID`. -/
def Row.isroot (r : Row) : Bool := r.id == ROOT_ID

/-- Modelled from the spec: `IndexPathRow.hascontent` (pages module, not in
the provided source).  A page has content iff a content etag is recorded for
it; placeholders and demoted rows have a null `content_etag`. -/
def Row.hascontent (r : Row) : Bool := r.content_etag.isSome

/-- Embedding of `UPDATE pages SET ... WHERE id=?`: apply `f` to every row
whose `id` matches. -/
def updateRow (db : List Row) (i : Nat) (f : Row → Row) : List Row :=
  db.map fun r => if r.id = i then f r else r

/-- Embedding of `SELECT * FROM pages WHERE id=?` (first match). -/
def lookupId (db : List Row) (i : Nat) : Option Row :=
  db.find? fun r => r.id == i

/-- Embedding of `SELECT * FROM pages WHERE parent=?`. -/
def childRows (db : List Row) (i : Nat) : List Row :=
  db.filter fun r => r.parent == i

/-! ## `IndexInternal.set_page_exists` -/

/-- `IndexInternal._set_page_exists`: remember whether the (in-memory) row
passed in was still `UNCERTAIN`, update the row's `page_exists`, and fire
`on_new_page` on every sub-indexer when it was `UNCERTAIN` and is not the
root.  The embedding returns the new table together with the ids for which
`on_new_page` fired. -/
def internalSetPageExists (db : List Row) (row : Row) (page_exists : Nat) :
    List Row × List Nat :=
  (updateRow db row.id (fun r => { r with page_exists := page_exists }),
   if row.page_exists == PAGE_EXISTS_UNCERTAIN && !row.isroot then [row.id] else [])

/-- The ancestor loop of `set_page_exists`:
`for parent in reversed(list(indexpath.parents()))` visits the ancestors
top-down (root first); each is freshly looked up (`lookup_by_indexpath`,
embedded as a lookup by id) and promoted only when its current
`page_exists` is below the target level.  A failed lookup raises. -/
def setExistsAncestors (db : List Row) (ancestors : List Nat)
    (page_exists : Nat) : Except String (List Row × List Nat) :=
  match ancestors with
  | [] => .ok (db, [])
  | a :: rest =>
    match lookupId db a with
    | none => .error "IndexNotFoundError"
    | some parentrow =>
      let step :=
        if parentrow.page_exists < page_exists then
          internalSetPageExists db parentrow page_exists
        else (db, [])
      match setExistsAncestors step.1 rest page_exists with
      | .ok res => .ok (res.1, step.2 ++ res.2)
      | .error e => .error e

/-- `IndexInternal.set_page_exists`: assert the target level is `AS_LINK`
or `HAS_CONTENT`, promote the ancestors top-down, then set the page itself
unconditionally, using the in-memory row that was passed in.  `ancestors`
is the id chain of `indexpath.parents()` in top-down order. -/
def set_page_exists (db : List Row) (ancestors : List Nat) (page : Row)
    (page_exists : Nat) : Except String (List Row × List Nat) :=
  if !(page_exists == PAGE_EXISTS_AS_LINK || page_exists == PAGE_EXISTS_HAS_CONTENT) then
    .error "AssertionError"
  else
    match setExistsAncestors db ancestors page_exists with
    | .ok res =>
      let fin := internalSetPageExists res.1 page page_exists
      .ok (fin.1, res.2 ++ fin.2)
    | .error e => .error e

/-- The on-new-page decision `set_page_exists` makes for the chain entry
with id `a`, read off the original table. -/
def firedAt (db : List Row) (a : Nat) : Option Nat :=
  match lookupId db a with
  | some r => if r.page_exists == PAGE_EXISTS_UNCERTAIN && !r.isroot then some a else none
  | none => none

/-- Raising a row to at least `level` of existence (the net effect
`set_page_exists` has on every row of the affected chain). -/
def promoteRow (level : Nat) (r : Row) : Row :=
  { r with page_exists := max r.page_exists level }

/-- The existence-monotonicity invariant of the `pages` table: every
non-root row's `page_exists` is bounded by its parent row's. -/
def ExistsMono (db : List Row) : Prop :=
  ∀ r ∈ db, r.isroot = false → ∀ q ∈ db, q.id = r.parent →
    r.page_exists ≤ q.page_exists

/-- `ChainFrom db prev ids page`: walking down from the row with id `prev`,
the ids `ids` name existing non-root rows each parent-linked to the
previous one, and `page` hangs below the last of them (or directly below
`prev` when `ids` is empty). -/
def ChainFrom (db : List Row) : Nat → List Nat → Row → Prop
  | prev, [], page => page.parent = prev
  | prev, a :: rest, page =>
    (∃ r ∈ db, r.id = a ∧ r.parent = prev ∧ r.isroot = false) ∧
      ChainFrom db a rest page

/-- `AncestorChain db ids page`: `ids` is the full ancestor chain of
`page`, top-down — it starts at the root row and walks parent-links down
to `page.parent`.  This is the order `reversed(list(indexpath.parents()))`
produces. -/
def AncestorChain (db : List Row) (ids : List Nat) (page : Row) : Prop :=
  match ids with
  | [] => False
  | a :: rest =>
    (∃ r ∈ db, r.id = a ∧ r.isroot = true) ∧ ChainFrom db a rest page

/-! ## `IndexInternal.check_existance` and `IndexInternal.delete_page` -/

/-- `IndexPathRow` descendants: `IsDesc db i r` holds when row `r` is a
descendant, at any depth, of the page with id `i`, following the `parent`
links of the table. -/
inductive IsDesc (db : List Row) : Nat → Row → Prop
  | child (i : Nat) (r : Row) : r ∈ db → r.parent = i → IsDesc db i r
  | step (i : Nat) (c r : Row) : c ∈ db → c.parent = i → IsDesc db c.id r → IsDesc db i r

/-- `IndexInternal.check_existance`: true when the page itself has content,
or when `SELECT count(*) FROM pages WHERE parent=? and page_exists=?`
(with `PAGE_EXISTS_HAS_CONTENT`) is positive — i.e. some *direct* child row
is recorded as having content. -/
def check_existance (db : List Row) (indexpath : Row) : Bool :=
  if indexpath.hascontent then true
  else
    decide (0 < (db.filter (fun r =>
      r.parent == indexpath.id && r.page_exists == PAGE_EXISTS_HAS_CONTENT)).length)

/-- The table effect of one `delete_page` call once its assertions passed:
a row with (cached) children is demoted to an `AS_LINK` placeholder with
nulled `content_etag`, `ctime`, `mtime` and `children_etag`
(`UPDATE pages SET page_exists=?, content_etag=?, ctime=?, mtime=?,
children_etag=? WHERE id=?`); a childless row is removed
(`DELETE FROM pages WHERE id=?`). -/
def delete_page_table (db : List Row) (indexpath : Row) : List Row :=
  if 0 < indexpath.n_children then
    updateRow db indexpath.id (fun r =>
      { r with
        page_exists := PAGE_EXISTS_AS_LINK
        content_etag := none
        ctime := none
        mtime := none
        children_etag := none })
  else
    db.filter (fun r => !(r.id == indexpath.id))

/-- `IndexInternal.delete_page`: assert the page is not the root; assert
that, when the (cached) `n_children` is positive, every child row is an
`AS_LINK` placeholder (`AssertionError('Can not delete path with
children')` otherwise); demote or remove the row; then, when `cleanup` is
true and the parent is not the root, look the parent up (a vanished parent
is ignored) and recurse on it when `check_existance` denies it.  The
sub-indexer callbacks (`on_delete_page` / `on_deleted_page`) touch only
sub-indexer tables, which are outside this table model.  The recursion
climbs the ancestor chain, so it is fuelled; `fuel` larger than the tree
depth never runs out. -/
def delete_page : Nat → List Row → Row → Bool → Except String (List Row × Row)
  | 0, _, _, _ => .error "fuel exhausted"
  | fuel + 1, db, indexpath, cleanup =>
    if indexpath.isroot then .error "AssertionError" else
    if 0 < indexpath.n_children &&
        !((childRows db indexpath.id).all
          (fun r => r.page_exists == PAGE_EXISTS_AS_LINK)) then
      .error "Can not delete path with children"
    else
      let db1 := delete_page_table db indexpath
      if cleanup && !(indexpath.parent == ROOT_ID) then
        match lookupId db1 indexpath.parent with
        | none => .ok (db1, indexpath)
        | some parentRow =>
          if check_existance db1 parentRow then .ok (db1, indexpath)
          else delete_page fuel db1 parentRow true
      else .ok (db1, indexpath)

/-! ## The storage layout, `check_pagelist`, `update_parent`,
`Index.on_delete_page` -/

/-- The slice of the `NotebookLayout` interface these operations consult:
the basenames `index_list_children` enumerates under a page, and
`str(folder.mtime()) if folder.exists() else None` for the page's folder. -/
structure Layout where
  listChildren : List String → List String
  folderMtime : List String → Option String

/-- The reconciliation loop of `check_pagelist`: remove each database
child's basename from the set of store-listed names; a missing name
(`KeyError`) means mismatch; at the end the set must be empty. -/
def removeNames : List String → List Row → Bool
  | names, [] => names.isEmpty
  | names, r :: rs =>
    if r.basename ∈ names then removeNames (names.erase r.basename) rs else false

/-- `IndexInternal.check_pagelist`: compare the basenames the store lists
under the page against the non-`AS_LINK` child rows. -/
def check_pagelist (layout : Layout) (db : List Row) (path : List String)
    (id : Nat) : Bool :=
  removeNames (layout.listChildren path)
    (db.filter (fun r => r.parent == id && !(r.page_exists == PAGE_EXISTS_AS_LINK)))

/-- `IndexInternal.update_parent`: recompute the children etag from the
folder and store it only when the current child rows match the store
listing; otherwise leave the record stale. -/
def update_parent (layout : Layout) (db : List Row) (parentPath : List String)
    (parentId : Nat) : List Row :=
  let etag := layout.folderMtime parentPath
  if check_pagelist layout db parentPath parentId then
    updateRow db parentId (fun r => { r with children_etag := etag })
  else db

/-- Embedding of `SELECT * FROM pages WHERE parent=? and basename=?`
(first match). -/
def lookupByParentBasename (db : List Row) (parent : Nat) (name : String) :
    Option Row :=
  db.find? (fun r => r.parent == parent && r.basename == name)

/-- Modelled from the spec: the part-by-part walk of
`PagesViewInternal.lookup_by_pagename` (pages module, not in the provided
source): resolve each name part under the row found so far. -/
def lookupPathFrom (db : List Row) : Nat → List String → Option Row
  | _, [] => none
  | parent, n :: rest =>
    match lookupByParentBasename db parent n with
    | none => none
    | some r => if rest.isEmpty then some r else lookupPathFrom db r.id rest

/-- Modelled from the spec: `PagesViewInternal.lookup_by_pagename` — an
absent record means `IndexNotFoundError`, embedded as `none`. -/
def lookup_by_pagename (db : List Row) (path : List String) : Option Row :=
  lookupPathFrom db ROOT_ID path

/-- Modelled from the spec: `PagesViewInternal.walk_bottomup` (pages
module, not in the provided source): yield every descendant row of the
page, children after their own descendants (bottom-up), so leaves are
deleted first. -/
def walk_bottomup (db : List Row) : Nat → Row → List Row
  | 0, _ => []
  | fuel + 1, row =>
    (childRows db row.id).flatMap (fun c => walk_bottomup db fuel c ++ [c])

/-- `Index.on_delete_page`: inside one write context, look the path up —
on `IndexNotFoundError` return at once — else delete the subtree bottom-up,
delete the page itself with `cleanup=True`, and run `update_parent` on the
parent of the last row deleted; then `before_commit` (link resolution)
runs still inside the transaction and `after_commit` (signal drain) after
it.  The embedding returns the final table and two booleans recording
whether `before_commit` and `after_commit` ran. -/
def on_delete_page (layout : Layout) (fuel : Nat) (db : List Row)
    (path : List String) : Except String (List Row × Bool × Bool) :=
  match lookup_by_pagename db path with
  | none => .ok (db, false, false)
  | some indexpath =>
    match (walk_bottomup db fuel indexpath).foldlM
        (fun d c => (delete_page fuel d c false).map Prod.fst) db with
    | .error e => .error e
    | .ok db1 =>
      match delete_page fuel db1 indexpath true with
      | .error e => .error e
      | .ok res =>
        let db3 := update_parent layout res.1 res.2.path.dropLast res.2.parent
        .ok (db3, true, true)

/-! ## The `zim_index` table and `IndexInternal.get_property` / `set_property`

The `zim_index` table is a key/value store with a uniqueness constraint on
the key; values reaching sqlite are coerced to `TEXT` (so a Python `True`
is stored as the string `"1"` and `False`/`0` as `"0"`). -/

/-- The `zim_index` table: an association list from key to stored text. -/
abbrev Props := List (String × String)

/-- `IndexInternal.get_property`: `SELECT value FROM zim_index WHERE key=?`;
returns the value of the first matching row, or `None` when there is no
row. -/
def get_property (props : Props) (key : String) : Option String :=
  (List.find? (fun kv => kv.1 == key) props).map (fun kv => kv.2)

/-- `IndexInternal.set_property`: `DELETE FROM zim_index WHERE key=?`
followed by `INSERT INTO zim_index(key, value) VALUES (?, ?)`. -/
def set_property (props : Props) (key : String) (value : String) : Props :=
  (List.filter (fun kv => !(kv.1 == key)) props) ++ [(key, value)]

/-- sqlite `TEXT` coercion of the Python booleans the source passes to
`set_property` for the `probably_uptodate` key. -/
def pyBoolText (b : Bool) : String := if b then "1" else "0"

/-- The `Index.probably_uptodate` property:
`value = get_property(db, 'probably_uptodate'); return False if value == '0' else True`. -/
def probably_uptodate (props : Props) : Bool :=
  match get_property props "probably_uptodate" with
  | some v => if v == "0" then false else true
  | none => true

/-! ## The work-queue selection of `TreeIndexer.do_update_iter`

`SELECT * FROM pages WHERE needscheck > 0 ORDER BY needscheck, id LIMIT 1`:
filter the table to the rows with positive `needscheck`, order them by the
lexicographic key `(needscheck, id)`, and take the first row if any. -/

/-- The `ORDER BY needscheck, id` ordering. -/
def checkOrder (a b : Row) : Prop :=
  a.needscheck < b.needscheck ∨ (a.needscheck = b.needscheck ∧ a.id ≤ b.id)

instance : DecidableRel checkOrder := fun a b => by unfold checkOrder; infer_instance

instance : IsTotal Row checkOrder := ⟨by intro a b; unfold checkOrder; omega⟩

instance : IsTrans Row checkOrder := ⟨by intro a b c; unfold checkOrder; omega⟩

/-- The selection query of the main loop. -/
def selectCheck (db : List Row) : Option Row :=
  (List.insertionSort checkOrder (db.filter fun r => 0 < r.needscheck)).head?

/-! ## Database state and the main loop -/

/-- The database state the tree indexer manipulates: the `pages` table and
the `zim_index` table.  (The `links` and tags tables belong to the
sub-indexers, whose code is outside the provided source.) -/
structure DB where
  pages : List Row
  props : Props
deriving DecidableEq, Repr

/-- `UPDATE pages SET needscheck=? WHERE id=?` on a `DB` state. -/
def setNeedscheckDB (st : DB) (i : Nat) (check : Nat) : DB :=
  { st with pages := updateRow st.pages i (fun r => { r with needscheck := check }) }

/-- The kind of check functions the loop dispatches to
(`check_children` / `check_children(checktree=True)` / `check_page`).
Each receives the selected row and the state, mutates the state (possibly
partially), and either returns normally or raises.  The dispatch claims are
proved for arbitrary check functions. -/
abbrev CheckFun := Row → DB → DB × Except String Unit

/-- The dispatch of `do_update_iter`: `check_children` for
`INDEX_CHECK_CHILDREN`, `check_children(checktree=True)` for
`INDEX_CHECK_TREE`, `check_page` for `INDEX_CHECK_PAGE`, and
`AssertionError('BUG: Unknown update flag')` otherwise — tested in the order
of the source. -/
def dispatchCheck (cc ct cp : CheckFun) (check : Nat) (row : Row) (st : DB) :
    DB × Except String Unit :=
  if check == INDEX_CHECK_CHILDREN then cc row st
  else if check == INDEX_CHECK_TREE then ct row st
  else if check == INDEX_CHECK_PAGE then cp row st
  else (st, .error "BUG: Unknown update flag")

/-- The outcome of one pass through the body of `do_update_iter`'s
`while True` loop: either a `(check, page)` pair is yielded with the state
after the dispatch (and after the error containment, when the dispatch
raised), or the loop breaks with the final state. -/
inductive StepResult where
  | yield (check : Nat) (row : Row) (st : DB)
  | stop (st : DB)
deriving DecidableEq, Repr

/-- One iteration of `TreeIndexer.do_update_iter`: select the next row by
`(needscheck, id)`; if none is found, break out of the loop and set
`probably_uptodate` to `True`; otherwise dispatch on its `needscheck` and,
if the dispatch raises, log and mark the page `INDEX_UPTODATE`. -/
def doUpdateStep (cc ct cp : CheckFun) (st : DB) : StepResult :=
  match selectCheck st.pages with
  | none => .stop { st with props := set_property st.props "probably_uptodate" (pyBoolText true) }
  | some row =>
    let check := row.needscheck
    let (st1, res) := dispatchCheck cc ct cp check row st
    match res with
    | .ok _ => .yield check row st1
    | .error _ => .yield check row (setNeedscheckDB st1 row.id INDEX_UPTODATE)

/-- `TreeIndexer.do_update_iter` run with `fuel` iterations: the list of
yielded `(check, page-id)` pairs, and the final state when the loop reached
its natural end within the fuel (`none` when the fuel ran out first). -/
def do_update_iter (cc ct cp : CheckFun) : Nat → DB → List (Nat × Nat) × Option DB
  | 0, _ => ([], none)
  | fuel + 1, st =>
    match doUpdateStep cc ct cp st with
    | .stop st' => ([], some st')
    | .yield check row st' =>
      let rest := do_update_iter cc ct cp fuel st'
      ((check, row.id) :: rest.1, rest.2)

/-! ## Example states used by the witnesses -/

/-- A check function that succeeds without touching the state. -/
def okCheck : CheckFun := fun _ st => (st, .ok ())

/-- A check function that always raises. -/
def badCheck : CheckFun := fun _ st => (st, .error "boom")

/-- Example row: id 2, flagged `INDEX_CHECK_PAGE`. -/
def exRowA : Row :=
  { id := 2, parent := 1, basename := "A", path := ["A"], page_exists := 2,
    content_etag := some "10", children_etag := none, ctime := none,
    mtime := none, n_children := 0, needscheck := 5, childseen := 0 }

/-- Example row: id 3, flagged `INDEX_CHECK_TREE`. -/
def exRowB : Row :=
  { id := 3, parent := 1, basename := "B", path := ["B"], page_exists := 2,
    content_etag := some "11", children_etag := none, ctime := none,
    mtime := none, n_children := 0, needscheck := 3, childseen := 0 }

/-- Example state holding the two example rows. -/
def exSt : DB := { pages := [exRowA, exRowB], props := [("db_version", "0.6")] }

/-- Example ROOT row (id `ROOT_ID`, still `UNCERTAIN`). -/
def exRoot : Row :=
  { id := 1, parent := 0, basename := "", path := [], page_exists := 0,
    content_etag := none, children_etag := none, ctime := none, mtime := none,
    n_children := 1, needscheck := 0, childseen := 0 }

/-- Example top-level page `P` below the root, still `UNCERTAIN`. -/
def exPageP : Row :=
  { id := 2, parent := 1, basename := "P", path := ["P"], page_exists := 0,
    content_etag := none, children_etag := none, ctime := none, mtime := none,
    n_children := 0, needscheck := 0, childseen := 0 }

/-- Example table: the root and one uncertain page below it. -/
def exDb2 : List Row := [exRoot, exPageP]

/-- Example page with no content of its own but a content child. -/
def exP5 : Row :=
  { id := 2, parent := 1, basename := "P", path := ["P"], page_exists := 2,
    content_etag := none, children_etag := none, ctime := none, mtime := none,
    n_children := 1, needscheck := 0, childseen := 0 }

/-- Example content-bearing child of `exP5`. -/
def exC5 : Row :=
  { id := 3, parent := 2, basename := "C", path := ["P", "C"], page_exists := 2,
    content_etag := some "7", children_etag := none, ctime := none,
    mtime := none, n_children := 0, needscheck := 0, childseen := 0 }

/-- Example table for the existence check. -/
def exDb5 : List Row := [exP5, exC5]

/-- Example interior page `A` whose children are all placeholders. -/
def exA6 : Row :=
  { id := 2, parent := 1, basename := "A", path := ["A"], page_exists := 2,
    content_etag := some "5", children_etag := some "9", ctime := some "1",
    mtime := some "2", n_children := 2, needscheck := 0, childseen := 0 }

/-- Example placeholder child of `exA6`. -/
def exB6 : Row :=
  { id := 3, parent := 2, basename := "B", path := ["A", "B"], page_exists := 1,
    content_etag := none, children_etag := none, ctime := none, mtime := none,
    n_children := 0, needscheck := 0, childseen := 0 }

/-- Second example placeholder child of `exA6`. -/
def exC6 : Row :=
  { id := 4, parent := 2, basename := "C", path := ["A", "C"], page_exists := 1,
    content_etag := none, children_etag := none, ctime := none, mtime := none,
    n_children := 0, needscheck := 0, childseen := 0 }

/-- Example table for `delete_page`. -/
def exDb6 : List Row := [exA6, exB6, exC6]

/-- Example storage layout: an empty store. -/
def exLayout : Layout := { listChildren := fun _ => [], folderMtime := fun _ => none }

/-! ## Commit cadence: `DBChangeContext`, `TreeIndexer.__iter__`, `Index.update`

`DBChangeContext.__enter__` acquires the change lock and increments a
re-entrancy counter; `__exit__` decrements it and commits exactly when the
counter reaches zero without a pending exception.  Only the counter and the
number of commits matter to the claims, so the embedding tracks those. -/

/-- The observable state of a `DBChangeContext`: its re-entrancy counter and
the number of commits it has performed. -/
structure ChangeCtx where
  counter : Nat
  commits : Nat
deriving DecidableEq, Repr

/-- `DBChangeContext.__enter__`: `self._counter += 1`. -/
def ctxEnter (c : ChangeCtx) : ChangeCtx := { c with counter := c.counter + 1 }

/-- `DBChangeContext.__exit__` on the no-exception path:
`self._counter -= 1; if self._counter == 0: self._db.commit()`. -/
def ctxExit (c : ChangeCtx) : ChangeCtx :=
  if c.counter - 1 = 0 then { counter := 0, commits := c.commits + 1 }
  else { c with counter := c.counter - 1 }

/-- One `with change_context: ...` block that raises no exception. -/
def ctxWith (c : ChangeCtx) : ChangeCtx := ctxExit (ctxEnter c)

/-- `TreeIndexer.__iter__` with `n` yields from `do_update_iter`: every
`next()` call is wrapped in its own `with change_context` block (so the
transaction is re-entered and committed once per iteration), and the final
`next()` — the one that raises `StopIteration` — is caught by a `break`
inside one more such block, whose normal exit also commits. -/
def treeIndexerIter : Nat → ChangeCtx → ChangeCtx
  | 0, c => ctxWith c
  | n + 1, c => treeIndexerIter n (ctxWith c)

/-- The commits performed by `Index.update` (which drains
`Index.update_iter`): `TreeIndexer.queue_check` opens one
`with db_change_context` block of its own, then the `for` loop simply
iterates `TreeIndexer.__iter__`; no write context is opened around the
loop.  `n` is the number of `(check, page)` pairs the state machine
yields. -/
def update_commits (n : Nat) : Nat := (treeIndexerIter n (ctxWith ⟨0, 0⟩)).commits

/-! ## The `update_children` per-child decision (`TreeIndexer.update_children`) -/

/-- The `needscheck` decision of `TreeIndexer.update_children` for an
existing child row.  `file` is `some e` when `map_page` returned a file
object with `file.exists() = e`, and `none` when it returned no file (the
source guards every use with `if file and ...`).  In non-recursive mode
(`checktree=False`), when the first test is false the source evaluates
`page.haschildren` — but no name `page` is bound anywhere in
`update_children`, so evaluating it raises a `NameError`, embedded here as
an error result. -/
def update_children_child_check (checktree : Bool) (file : Option Bool)
    (folderExists : Bool) (row_content_etag : Option String)
    (row_n_children : Nat) : Except String (Option Nat) :=
  if checktree then
    .ok (some (if folderExists || decide (0 < row_n_children) then INDEX_CHECK_TREE
      else INDEX_CHECK_PAGE))
  else
    if (match file with
        | some e => e != row_content_etag.isSome
        | none => false) then
      .ok (some INDEX_CHECK_PAGE)
    else
      .error "NameError: name 'page' is not defined"

/-- The child-state decision table as the specification states it for
non-recursive mode: a file-existence / content-etag mismatch gives
`CHECK_PAGE`; otherwise a having-children / `n_children > 0` mismatch gives
`CHECK_CHILDREN`; otherwise the flag is left unchanged (`none`). -/
def spec_child_check (fileExists : Bool) (hasContentEtag : Bool)
    (haschildren : Bool) (hasChildRows : Bool) : Option Nat :=
  if fileExists != hasContentEtag then some INDEX_CHECK_PAGE
  else if haschildren != hasChildRows then some INDEX_CHECK_CHILDREN
  else none

/-! ## Table-lookup lemmas -/

theorem lookupId_mem_id (db : List Row) (i : Nat) (r : Row)
    (h : lookupId db i = some r) : r ∈ db ∧ r.id = i := by
  unfold lookupId at h
  refine ⟨List.mem_of_find?_eq_some h, ?_⟩
  have hp := List.find?_some h
  simpa using hp

theorem lookupId_of_mem (db : List Row) (r : Row)
    (hnd : (db.map Row.id).Nodup) (hr : r ∈ db) :
    lookupId db r.id = some r := by
  unfold lookupId
  cases hfind : db.find? (fun x => x.id == r.id) with
  | none =>
    have hnone := List.find?_eq_none.1 hfind r hr
    simp at hnone
  | some q =>
    have hq : q ∈ db := List.mem_of_find?_eq_some hfind
    have hqid : q.id = r.id := by simpa using List.find?_some hfind
    have hqr : q = r := List.inj_on_of_nodup_map hnd hq hr hqid
    rw [hqr]

theorem lookupId_map_of_preserve (db : List Row) (f : Row → Row)
    (hf : ∀ r, (f r).id = r.id) (i : Nat) :
    lookupId (db.map f) i = (lookupId db i).map f := by
  unfold lookupId
  induction db with
  | nil => rfl
  | cons r t ih =>
    simp only [List.map_cons]
    rw [List.find?_cons, List.find?_cons, hf r]
    cases hb : (r.id == i) with
    | true => rfl
    | false => simpa using ih

theorem map_row_id_of_preserve (db : List Row) (f : Row → Row)
    (hf : ∀ r, (f r).id = r.id) :
    (db.map f).map Row.id = db.map Row.id := by
  rw [List.map_map]
  exact List.map_congr_left (fun r _ => hf r)

theorem lookupId_updateRow_ne (db : List Row) (i j : Nat) (f : Row → Row)
    (hf : ∀ r, (f r).id = r.id) (hij : j ≠ i) :
    lookupId (updateRow db i f) j = lookupId db j := by
  unfold updateRow
  have hpres : ∀ r : Row, ((fun r => if r.id = i then f r else r) r).id = r.id := by
    intro r
    by_cases h : r.id = i <;> simp [h, hf]
  rw [lookupId_map_of_preserve _ _ hpres]
  cases hl : lookupId db j with
  | none => rfl
  | some r =>
    have hid := (lookupId_mem_id db j r hl).2
    have hfix : (fun x : Row => if x.id = i then f x else x) r = r := by
      simp only
      rw [if_neg]
      rw [hid]
      exact hij
    simp [hfix]

/-! ## Facts about `promoteRow` -/

@[simp] theorem promoteRow_id (level : Nat) (r : Row) :
    (promoteRow level r).id = r.id := rfl

@[simp] theorem promoteRow_parent (level : Nat) (r : Row) :
    (promoteRow level r).parent = r.parent := rfl

@[simp] theorem promoteRow_isroot (level : Nat) (r : Row) :
    (promoteRow level r).isroot = r.isroot := rfl

@[simp] theorem promoteRow_page_exists (level : Nat) (r : Row) :
    (promoteRow level r).page_exists = max r.page_exists level := rfl

theorem promoteRow_eq_self (level : Nat) (r : Row) (h : level ≤ r.page_exists) :
    promoteRow level r = r := by
  unfold promoteRow
  rw [Nat.max_eq_left h]

theorem promoteRow_eq_set (level : Nat) (r : Row) (h : r.page_exists ≤ level) :
    promoteRow level r = { r with page_exists := level } := by
  unfold promoteRow
  rw [Nat.max_eq_right h]

/-! ## Chain lemmas for `set_page_exists` -/

theorem chainFrom_facts (db : List Row) (hnd : (db.map Row.id).Nodup) :
    ∀ (ids : List Nat) (prev : Nat) (page : Row),
      ChainFrom db prev ids page →
      (∀ a ∈ ids, ∃ r ∈ db, r.id = a) ∧
      (page.parent = prev ∨ page.parent ∈ ids) ∧
      (∀ r ∈ db, r.id ∈ ids → r.isroot = false ∧ (r.parent = prev ∨ r.parent ∈ ids)) := by
  intro ids
  induction ids with
  | nil =>
    intro prev page h
    exact ⟨by simp, Or.inl h, by simp⟩
  | cons a rest ih =>
    intro prev page h
    obtain ⟨⟨ra, hra_mem, hra_id, hra_par, hra_root⟩, hrest⟩ := h
    obtain ⟨ihex, ihpage, ihfacts⟩ := ih a page hrest
    refine ⟨?_, ?_, ?_⟩
    · intro b hb
      rcases List.mem_cons.1 hb with h1 | h2
      · exact ⟨ra, hra_mem, by rw [hra_id, h1]⟩
      · exact ihex b h2
    · rcases ihpage with h1 | h2
      · exact Or.inr (by rw [h1]; exact List.mem_cons_self _ _)
      · exact Or.inr (List.mem_cons_of_mem _ h2)
    · intro r hr hrid
      rcases List.mem_cons.1 hrid with h1 | h2
      · have hreq : r = ra := by
          apply List.inj_on_of_nodup_map hnd hr hra_mem
          rw [h1, hra_id]
        rw [hreq]
        exact ⟨hra_root, Or.inl hra_par⟩
      · obtain ⟨hroot, hpar⟩ := ihfacts r hr h2
        refine ⟨hroot, ?_⟩
        rcases hpar with h3 | h4
        · exact Or.inr (by rw [h3]; exact List.mem_cons_self _ _)
        · exact Or.inr (List.mem_cons_of_mem _ h4)

theorem map_promote_cons (db : List Row) (level : Nat) (a : Nat) (rest : List Nat)
    (ra : Row) (hra_mem : ra ∈ db) (hra_id : ra.id = a)
    (hnd : (db.map Row.id).Nodup) (ha_rest : a ∉ rest)
    (hlt : ra.page_exists < level) :
    (updateRow db ra.id (fun r => { r with page_exists := level })).map
        (fun r => if r.id ∈ rest then promoteRow level r else r) =
      db.map (fun r => if r.id ∈ a :: rest then promoteRow level r else r) := by
  unfold updateRow
  rw [List.map_map]
  refine List.map_congr_left ?_
  intro r hrm
  simp only [Function.comp_apply]
  by_cases h1 : r.id = ra.id
  · have hreq : r = ra := List.inj_on_of_nodup_map hnd hrm hra_mem h1
    subst hreq
    rw [if_pos rfl]
    have hni : ({ r with page_exists := level } : Row).id ∉ rest := by
      simpa [hra_id] using ha_rest
    rw [if_neg hni]
    rw [if_pos (show r.id ∈ a :: rest by rw [hra_id]; exact List.mem_cons_self _ _)]
    rw [promoteRow_eq_set _ _ (Nat.le_of_lt hlt)]
  · rw [if_neg h1]
    by_cases h2 : r.id ∈ rest
    · rw [if_pos h2, if_pos (List.mem_cons_of_mem _ h2)]
    · have hnc : r.id ∉ a :: rest := by
        intro hc
        rcases List.mem_cons.1 hc with h3 | h4
        · exact h1 (h3.trans hra_id.symm)
        · exact h2 h4
      rw [if_neg h2, if_neg hnc]

theorem map_promote_cons_skip (db : List Row) (level : Nat) (a : Nat)
    (rest : List Nat) (ra : Row) (hra_mem : ra ∈ db) (hra_id : ra.id = a)
    (hnd : (db.map Row.id).Nodup) (ha_rest : a ∉ rest)
    (hge : level ≤ ra.page_exists) :
    db.map (fun r => if r.id ∈ rest then promoteRow level r else r) =
      db.map (fun r => if r.id ∈ a :: rest then promoteRow level r else r) := by
  refine List.map_congr_left ?_
  intro r hrm
  by_cases h1 : r.id = ra.id
  · have hreq : r = ra := List.inj_on_of_nodup_map hnd hrm hra_mem h1
    subst hreq
    have hni : r.id ∉ rest := by rw [hra_id]; exact ha_rest
    rw [if_neg hni]
    rw [if_pos (show r.id ∈ a :: rest by rw [hra_id]; exact List.mem_cons_self _ _)]
    rw [promoteRow_eq_self _ _ hge]
  · by_cases h2 : r.id ∈ rest
    · rw [if_pos h2, if_pos (List.mem_cons_of_mem _ h2)]
    · have hnc : r.id ∉ a :: rest := by
        intro hc
        rcases List.mem_cons.1 hc with h3 | h4
        · exact h1 (h3.trans hra_id.symm)
        · exact h2 h4
      rw [if_neg h2, if_neg hnc]

theorem setExistsAncestors_spec (level : Nat) (hlevel : 0 < level) :
    ∀ (anc : List Nat) (db : List Row),
      (db.map Row.id).Nodup →
      anc.Nodup →
      (∀ a ∈ anc, ∃ r ∈ db, r.id = a) →
      setExistsAncestors db anc level =
        .ok (db.map (fun r => if r.id ∈ anc then promoteRow level r else r),
             anc.filterMap (firedAt db)) := by
  intro anc
  induction anc with
  | nil =>
    intro db hnd hnda hex
    simp [setExistsAncestors]
  | cons a rest ih =>
    intro db hnd hnda hex
    obtain ⟨ra, hra_mem, hra_id⟩ := hex a (List.mem_cons_self _ _)
    have hlook : lookupId db a = some ra := by
      rw [← hra_id]
      exact lookupId_of_mem db ra hnd hra_mem
    have ha_rest : a ∉ rest := (List.nodup_cons.1 hnda).1
    have hnd_rest : rest.Nodup := (List.nodup_cons.1 hnda).2
    unfold setExistsAncestors
    rw [hlook]
    simp only
    by_cases hlt : ra.page_exists < level
    · -- the ancestor is promoted
      rw [if_pos hlt]
      unfold internalSetPageExists
      simp only
      have hnd1 : ((updateRow db ra.id (fun r => { r with page_exists := level })).map Row.id).Nodup := by
        unfold updateRow
        rw [map_row_id_of_preserve]
        · exact hnd
        · intro r
          by_cases h : r.id = ra.id <;> simp [h]
      have hex1 : ∀ b ∈ rest,
          ∃ r ∈ (updateRow db ra.id (fun r => { r with page_exists := level })), r.id = b := by
        intro b hb
        obtain ⟨r, hrm, hrid⟩ := hex b (List.mem_cons_of_mem _ hb)
        have hne : r.id ≠ ra.id := by
          rw [hrid, hra_id]
          intro hc
          rw [hc] at hb
          exact ha_rest hb
        have hfix : (fun x : Row => if x.id = ra.id then { x with page_exists := level } else x) r = r := by
          simp [hne]
        refine ⟨r, ?_, hrid⟩
        unfold updateRow
        exact hfix ▸ List.mem_map_of_mem _ hrm
      rw [ih _ hnd1 hnd_rest hex1]
      simp only [Except.ok.injEq, Prod.mk.injEq]
      refine ⟨?_, ?_⟩
      · exact map_promote_cons db level a rest ra hra_mem hra_id hnd ha_rest hlt
      · -- fired lists agree
        have hfa : firedAt db a =
            if ra.page_exists == PAGE_EXISTS_UNCERTAIN && !ra.isroot then some a else none := by
          unfold firedAt
          rw [hlook]
        have hrest_same :
            rest.filterMap (firedAt (updateRow db ra.id (fun r => { r with page_exists := level }))) =
              rest.filterMap (firedAt db) := by
          apply List.filterMap_congr
          intro b hb
          unfold firedAt
          rw [lookupId_updateRow_ne]
          · intro r; rfl
          · intro hc
            rw [hra_id] at hc
            rw [hc] at hb
            exact ha_rest hb
        rw [hrest_same, List.filterMap_cons, hfa, hra_id]
        by_cases hcond : (ra.page_exists == PAGE_EXISTS_UNCERTAIN && !ra.isroot) = true
        · rw [if_pos hcond, if_pos hcond]
          rfl
        · rw [if_neg hcond, if_neg hcond]
          rfl
    · -- the ancestor is already at or above the target level
      rw [if_neg hlt]
      rw [ih _ hnd hnd_rest (fun b hb => hex b (List.mem_cons_of_mem _ hb))]
      simp only [Except.ok.injEq, Prod.mk.injEq]
      refine ⟨?_, ?_⟩
      · exact map_promote_cons_skip db level a rest ra hra_mem hra_id hnd ha_rest
          (Nat.le_of_not_lt hlt)
      · have hfa : firedAt db a = none := by
          unfold firedAt
          rw [hlook]
          show (if (ra.page_exists == PAGE_EXISTS_UNCERTAIN && !ra.isroot) = true
            then some a else none) = none
          rw [if_neg]
          intro hc
          simp only [Bool.and_eq_true, beq_iff_eq] at hc
          rw [hc.1] at hlt
          exact hlt hlevel
        rw [List.filterMap_cons, hfa]
        simp

theorem existsMono_promote (db : List Row) (S : List Nat) (level : Nat)
    (hmono : ExistsMono db)
    (hclosed : ∀ r ∈ db, r.isroot = false → r.id ∈ S → r.parent ∈ S) :
    ExistsMono (db.map (fun r => if r.id ∈ S then promoteRow level r else r)) := by
  intro r' hr' hroot q' hq' hqid
  simp only [List.mem_map] at hr' hq'
  obtain ⟨r, hr, hfr⟩ := hr'
  obtain ⟨q, hq, hfq⟩ := hq'
  have hid : ∀ x : Row, ((if x.id ∈ S then promoteRow level x else x) : Row).id = x.id := by
    intro x; by_cases h : x.id ∈ S <;> simp [h]
  have hparent : ∀ x : Row,
      ((if x.id ∈ S then promoteRow level x else x) : Row).parent = x.parent := by
    intro x; by_cases h : x.id ∈ S <;> simp [h]
  have hisroot : ∀ x : Row,
      ((if x.id ∈ S then promoteRow level x else x) : Row).isroot = x.isroot := by
    intro x; by_cases h : x.id ∈ S <;> simp [h]
  subst hfr
  subst hfq
  rw [hisroot] at hroot
  rw [hid, hparent] at hqid
  have base : r.page_exists ≤ q.page_exists := hmono r hr hroot q hq hqid
  by_cases hrS : r.id ∈ S
  · have hqS : q.id ∈ S := by
      rw [hqid]
      exact hclosed r hr hroot hrS
    rw [if_pos hrS, if_pos hqS]
    simp only [promoteRow_page_exists]
    exact max_le_max base (Nat.le_refl level)
  · rw [if_neg hrS]
    by_cases hqS : q.id ∈ S
    · rw [if_pos hqS]
      simp only [promoteRow_page_exists]
      exact Nat.le_trans base (Nat.le_max_left _ _)
    · rw [if_neg hqS]
      exact base

theorem chain_closed (db : List Row) (anc : List Nat) (page : Row)
    (hnd : (db.map Row.id).Nodup)
    (hchain : AncestorChain db anc page)
    (hpage : page ∈ db)
    (hdisj : page.id ∉ anc) :
    ∀ r ∈ db, r.isroot = false → r.id ∈ anc ++ [page.id] →
      r.parent ∈ anc ++ [page.id] := by
  cases anc with
  | nil => exact absurd hchain id
  | cons a rest =>
    obtain ⟨⟨r0, hr0m, hr0id, hr0root⟩, hcf⟩ := hchain
    obtain ⟨hex, hpagepar, hfacts⟩ := chainFrom_facts db hnd rest a page hcf
    intro r hr hroot hrid
    rcases List.mem_append.1 hrid with hin | hpg
    · rcases List.mem_cons.1 hin with h1 | h2
      · have hreq : r = r0 :=
          List.inj_on_of_nodup_map hnd hr hr0m (by rw [h1, hr0id])
        rw [hreq, hr0root] at hroot
        simp at hroot
      · obtain ⟨_, hpar⟩ := hfacts r hr h2
        rcases hpar with h3 | h4
        · exact List.mem_append_left _ (by rw [h3]; exact List.mem_cons_self _ _)
        · exact List.mem_append_left _ (List.mem_cons_of_mem _ h4)
    · have hpid : r.id = page.id := by simpa using hpg
      have hreq : r = page := List.inj_on_of_nodup_map hnd hr hpage hpid
      rw [hreq]
      rcases hpagepar with h3 | h4
      · exact List.mem_append_left _ (by rw [h3]; exact List.mem_cons_self _ _)
      · exact List.mem_append_left _ (List.mem_cons_of_mem _ h4)

/-! ## Selection lemmas -/

theorem sortedHeadMin (l : List Row) (row : Row)
    (h : (List.insertionSort checkOrder l).head? = some row) :
    row ∈ l ∧ ∀ x ∈ l, checkOrder row x := by
  have hp := List.perm_insertionSort checkOrder l
  have hs := List.sorted_insertionSort checkOrder l
  rcases hl : List.insertionSort checkOrder l with _ | ⟨a, t⟩
  · rw [hl] at h; simp at h
  · rw [hl] at h hp hs
    have ha : a = row := by simpa using h
    subst ha
    constructor
    · exact (List.Perm.mem_iff hp).1 (List.mem_cons_self _ _)
    · intro x hx
      have hx2 : x ∈ a :: t := (List.Perm.mem_iff hp).2 hx
      rcases List.mem_cons.1 hx2 with h1 | h2
      · subst h1; exact Or.inr ⟨rfl, Nat.le_refl _⟩
      · exact (List.sorted_cons.1 hs).1 _ h2

theorem selectCheck_mem_min (db : List Row) (row : Row)
    (h : selectCheck db = some row) :
    row ∈ db ∧ 0 < row.needscheck ∧
      ∀ r ∈ db, 0 < r.needscheck → checkOrder row r := by
  unfold selectCheck at h
  obtain ⟨hmem, hmin⟩ := sortedHeadMin _ row h
  have hrow := List.mem_filter.1 hmem
  refine ⟨hrow.1, by simpa using hrow.2, ?_⟩
  intro r hr hpos
  exact hmin r (List.mem_filter.2 ⟨hr, by simpa using hpos⟩)

theorem selectCheck_none_iff (db : List Row) :
    selectCheck db = none ↔ ∀ r ∈ db, r.needscheck = 0 := by
  unfold selectCheck
  have hp := List.perm_insertionSort checkOrder (db.filter fun r => 0 < r.needscheck)
  rw [List.head?_eq_none_iff]
  constructor
  · intro h r hr
    by_contra hne
    have hpos : 0 < r.needscheck := Nat.pos_of_ne_zero hne
    have hrf : r ∈ db.filter fun x => 0 < x.needscheck :=
      List.mem_filter.2 ⟨hr, by simpa using hpos⟩
    have hr2 : r ∈ List.insertionSort checkOrder (db.filter fun x => 0 < x.needscheck) :=
      (List.Perm.mem_iff hp).2 hrf
    rw [h] at hr2
    simp at hr2
  · intro h
    have hnil : db.filter (fun x => 0 < x.needscheck) = [] := by
      apply List.filter_eq_nil_iff.2
      intro r hr
      simp [h r hr]
    rw [hnil]
    simp

theorem get_set_property (props : Props) (key value : String) :
    get_property (set_property props key value) key = some value := by
  unfold get_property set_property
  rw [List.find?_append]
  have hnone : (List.filter (fun kv => !(kv.1 == key)) props).find?
      (fun kv => kv.1 == key) = none := by
    apply List.find?_eq_none.2
    intro kv hkv
    have := (List.mem_filter.1 hkv).2
    simpa using this
  rw [hnone]
  simp

/-! ## C1: dispatch order and termination of the main loop -/

/-- C1.  Main-loop dispatch order and termination: whenever one iteration of
`TreeIndexer.do_update_iter` yields a `(check, page)` pair, the dispatched
row is drawn from the `pages` table, its `needscheck` is positive, and it is
minimal for the lexicographic `(needscheck, id)` order among all rows with
`needscheck > 0`; and when no row has `needscheck > 0`, the loop body sets
the `probably_uptodate` property to true (stored text `"1"`) and the loop
terminates with no further yields. -/
theorem do_update_iter_order_and_termination (cc ct cp : CheckFun) (st : DB) :
    (∀ check row st', doUpdateStep cc ct cp st = .yield check row st' →
      row ∈ st.pages ∧ check = row.needscheck ∧ 0 < row.needscheck ∧
        ∀ r ∈ st.pages, 0 < r.needscheck → checkOrder row r) ∧
    ((∀ r ∈ st.pages, r.needscheck = 0) → ∀ fuel,
      do_update_iter cc ct cp (fuel + 1) st =
        ([], some { st with props := set_property st.props "probably_uptodate" "1" }) ∧
      probably_uptodate (set_property st.props "probably_uptodate" "1") = true) := by
  constructor
  · intro check row st' h
    unfold doUpdateStep at h
    match hsel : selectCheck st.pages with
    | none => rw [hsel] at h; simp at h
    | some r =>
      rw [hsel] at h
      simp only at h
      have hmin := selectCheck_mem_min st.pages r hsel
      match hres : dispatchCheck cc ct cp r.needscheck r st with
      | (st1, .ok _) =>
        rw [hres] at h
        simp only at h
        injection h with h1 h2 h3
        subst h1; subst h2
        exact ⟨hmin.1, rfl, hmin.2.1, hmin.2.2⟩
      | (st1, .error e) =>
        rw [hres] at h
        simp only at h
        injection h with h1 h2 h3
        subst h1; subst h2
        exact ⟨hmin.1, rfl, hmin.2.1, hmin.2.2⟩
  · intro h fuel
    have hsel : selectCheck st.pages = none := (selectCheck_none_iff st.pages).2 h
    constructor
    · unfold do_update_iter doUpdateStep
      rw [hsel]
      simp [pyBoolText]
    · unfold probably_uptodate
      rw [get_set_property]
      rfl

/-- Witness for C1 at a concrete state: with two queued rows
(`needscheck` 5 at id 2 and `needscheck` 3 at id 3) the loop dispatches the
row with minimal `(needscheck, id)`. -/
theorem do_update_iter_order_and_termination_witness :
    exRowB ∈ exSt.pages ∧ 0 < exRowB.needscheck ∧ checkOrder exRowB exRowA := by
  have happ := (do_update_iter_order_and_termination okCheck okCheck okCheck exSt).1
    3 exRowB exSt (by decide)
  exact ⟨happ.1, happ.2.2.1, happ.2.2.2 exRowA (by decide) (by decide)⟩

/-! ## C7: error containment in the state machine -/

/-- C7.  Error containment: if the check dispatched for the selected page
raises any exception, the loop body still yields (the exception does not
escape the loop), the page's `needscheck` is set to `INDEX_UPTODATE` in the
resulting state (on top of whatever partial mutation the failed dispatch
left behind), and the next selection — i.e. the next dispatched page — can
not pick that page again. -/
theorem do_update_iter_error_containment (cc ct cp : CheckFun) (st st1 : DB)
    (row : Row) (msg : String)
    (hsel : selectCheck st.pages = some row)
    (hdisp : dispatchCheck cc ct cp row.needscheck row st = (st1, .error msg)) :
    doUpdateStep cc ct cp st =
      .yield row.needscheck row (setNeedscheckDB st1 row.id INDEX_UPTODATE) ∧
    (∀ r ∈ (setNeedscheckDB st1 row.id INDEX_UPTODATE).pages,
      r.id = row.id → r.needscheck = INDEX_UPTODATE) ∧
    (∀ r', selectCheck (setNeedscheckDB st1 row.id INDEX_UPTODATE).pages = some r' →
      r'.id ≠ row.id) := by
  have hzero : ∀ r ∈ (setNeedscheckDB st1 row.id INDEX_UPTODATE).pages,
      r.id = row.id → r.needscheck = INDEX_UPTODATE := by
    intro r hr hid
    simp only [setNeedscheckDB, updateRow, List.mem_map] at hr
    obtain ⟨q, _, hq⟩ := hr
    by_cases hqid : q.id = row.id
    · rw [if_pos hqid] at hq
      rw [← hq]
    · rw [if_neg hqid] at hq
      rw [← hq] at hid
      exact absurd hid hqid
  refine ⟨?_, hzero, ?_⟩
  · unfold doUpdateStep
    rw [hsel]
    simp only
    rw [hdisp]
  · intro r' hr'
    obtain ⟨hmem, hpos, _⟩ := selectCheck_mem_min _ r' hr'
    intro hid
    have := hzero r' hmem hid
    rw [this] at hpos
    exact absurd hpos (by simp [INDEX_UPTODATE])

/-- Witness for C7 at a concrete state: a dispatch that raises is contained
and the failing page (id 3) is dequeued, so the following selection picks a
different page (and indeed some page is still selectable, id 2). -/
theorem do_update_iter_error_containment_witness :
    doUpdateStep badCheck badCheck badCheck exSt =
      .yield 3 exRowB (setNeedscheckDB exSt 3 INDEX_UPTODATE) ∧
    (∀ r', selectCheck (setNeedscheckDB exSt 3 INDEX_UPTODATE).pages = some r' →
      r'.id ≠ 3) := by
  have happ := do_update_iter_error_containment badCheck badCheck badCheck exSt exSt
    exRowB "boom" (by decide) rfl
  exact ⟨happ.1, fun r' h => happ.2.2 r' h⟩

/-! ## C9: the `probably_uptodate` property of the `Index` facade -/

/-- C9.  `Index.probably_uptodate` returns `False` exactly when the value
stored under the `probably_uptodate` key of `zim_index` is the string `"0"`;
in every other case — including when the key is absent and `get_property`
returns `None` — it returns `True`. -/
theorem probably_uptodate_false_iff (props : Props) :
    (probably_uptodate props = false ↔
      get_property props "probably_uptodate" = some "0") ∧
    (get_property props "probably_uptodate" = none →
      probably_uptodate props = true) := by
  constructor
  · unfold probably_uptodate
    cases h : get_property props "probably_uptodate" with
    | none => simp
    | some v =>
      by_cases hv : v = "0"
      · subst hv; simp
      · simp [hv]
  · intro h
    unfold probably_uptodate
    rw [h]

/-- Witness for C9: on an empty `zim_index` table the key is absent and the
property reads `True`. -/
theorem probably_uptodate_false_iff_witness :
    probably_uptodate [] = true :=
  (probably_uptodate_false_iff []).2 rfl

/-! ## C3: commit cadence of `Index.update` -/

theorem treeIndexerIter_commits (n : Nat) (k : Nat) :
    treeIndexerIter n ⟨0, k⟩ = ⟨0, k + n + 1⟩ := by
  induction n generalizing k with
  | zero => simp [treeIndexerIter, ctxWith, ctxEnter, ctxExit]
  | succ m ih =>
    have hstep : ctxWith ⟨0, k⟩ = ⟨0, k + 1⟩ := by
      simp [ctxWith, ctxEnter, ctxExit]
    unfold treeIndexerIter
    rw [hstep, ih]
    congr 1
    omega

/-- C3 counterexample / code evaluation.  The claim (and the docstring of
`Index.update`) says the foreground update performs exactly one commit at
the end.  In the source, `Index.update` drains `Index.update_iter`, which
iterates `TreeIndexer.__iter__` — the per-iteration-commit loop also used
by the background worker — after `queue_check` has already committed once.
So a foreground update that yields `n` pages commits `n + 2` times, never
once: already an update with nothing to do commits twice, and any update
that dispatches at least one page commits at least three times. -/
theorem update_commits_never_single :
    (∀ n, update_commits n = n + 2) ∧ update_commits 0 = 2 ∧ update_commits 1 = 3 := by
  refine ⟨?_, rfl, rfl⟩
  intro n
  unfold update_commits
  have hstep : ctxWith ⟨0, 0⟩ = ⟨0, 1⟩ := by
    simp [ctxWith, ctxEnter, ctxExit]
  rw [hstep, treeIndexerIter_commits]
  show 1 + n + 1 = n + 2
  omega

/-! ## C4: the `update_children` per-child decision -/

/-- C4 code evaluation.  In non-recursive mode the decision table is
unreachable past its first row: whenever the file's existence *agrees* with
the presence of a stored `content_etag` (and also when `map_page` returned
no file object), the source evaluates the unbound name `page` and raises a
`NameError` instead of comparing having-children against `n_children > 0`
and possibly leaving the flag unchanged.  First conjuncts: the code raises
on agreeing inputs; last conjuncts: the specified table returns
`CHECK_CHILDREN` / no-change there, and the only agreeing behaviour is the
mismatch row (`CHECK_PAGE`), which the code does implement. -/
theorem update_children_child_check_name_error :
    update_children_child_check false (some true) false (some "10") 0 =
      .error "NameError: name 'page' is not defined" ∧
    update_children_child_check false (some false) true none 3 =
      .error "NameError: name 'page' is not defined" ∧
    update_children_child_check false none false (some "10") 5 =
      .error "NameError: name 'page' is not defined" ∧
    spec_child_check true true true false = some INDEX_CHECK_CHILDREN ∧
    spec_child_check true true false false = none ∧
    update_children_child_check false (some true) false none 0 =
      .ok (some INDEX_CHECK_PAGE) ∧
    spec_child_check true false false false = some INDEX_CHECK_PAGE := by
  refine ⟨rfl, rfl, rfl, rfl, rfl, rfl, rfl⟩

/-! ## C2: `set_page_exists` and existence monotonicity -/

/-- C2.  Existence monotonicity: on a table satisfying the invariant
`parent.page_exists ≥ row.page_exists`, `set_page_exists(page, level)` —
called, as everywhere in the source, with a level that does not demote the
page — preserves the invariant.  Its effect is exactly: every ancestor on
the chain whose `page_exists` is below the target level is promoted to it,
top-down (root first), before the page itself is set; rows off the chain
are untouched; and `on_new_page` fires exactly for the non-root chain rows
that move out of `UNCERTAIN`, in that same top-down order with the page
last (the returned fired-id list). -/
theorem set_page_exists_spec (db : List Row) (anc : List Nat) (page : Row)
    (level : Nat)
    (hnd : (db.map Row.id).Nodup)
    (hmono : ExistsMono db)
    (hchain : AncestorChain db anc page)
    (hpage : page ∈ db)
    (hndall : (anc ++ [page.id]).Nodup)
    (hlevel : level = PAGE_EXISTS_AS_LINK ∨ level = PAGE_EXISTS_HAS_CONTENT)
    (hple : page.page_exists ≤ level) :
    set_page_exists db anc page level =
      .ok (db.map (fun r => if r.id ∈ anc ++ [page.id] then promoteRow level r else r),
           (anc ++ [page.id]).filterMap (firedAt db)) ∧
    ExistsMono
      (db.map (fun r => if r.id ∈ anc ++ [page.id] then promoteRow level r else r)) := by
  have hpos : 0 < level := by
    rcases hlevel with h | h <;> simp [h, PAGE_EXISTS_AS_LINK, PAGE_EXISTS_HAS_CONTENT]
  obtain ⟨hanc_nd, _, hdisj0⟩ := List.nodup_append.1 hndall
  have hdisj : page.id ∉ anc := by
    intro hc
    exact hdisj0 hc (List.mem_singleton.2 rfl)
  have hex : ∀ b ∈ anc, ∃ r ∈ db, r.id = b := by
    cases anc with
    | nil => simp
    | cons a rest =>
      obtain ⟨⟨r0, hr0m, hr0id, _⟩, hcf⟩ := hchain
      obtain ⟨hexr, _, _⟩ := chainFrom_facts db hnd rest a page hcf
      intro b hb
      rcases List.mem_cons.1 hb with h1 | h2
      · exact ⟨r0, hr0m, by rw [hr0id, h1]⟩
      · exact hexr b h2
  have hA := setExistsAncestors_spec level hpos anc db hnd hanc_nd hex
  have hassert : ¬((!(level == PAGE_EXISTS_AS_LINK || level == PAGE_EXISTS_HAS_CONTENT)) = true) := by
    rcases hlevel with h | h <;> simp [h]
  constructor
  · unfold set_page_exists
    rw [if_neg hassert, hA]
    simp only
    unfold internalSetPageExists
    simp only [Except.ok.injEq, Prod.mk.injEq]
    refine ⟨?_, ?_⟩
    · -- the final table
      unfold updateRow
      rw [List.map_map]
      refine List.map_congr_left ?_
      intro r hrm
      simp only [Function.comp_apply]
      by_cases h1 : r.id = page.id
      · have hreq : r = page := List.inj_on_of_nodup_map hnd hrm hpage h1
        subst hreq
        have hna : r.id ∉ anc := hdisj
        rw [if_neg hna, if_pos rfl]
        rw [if_pos (List.mem_append_right _ (List.mem_singleton.2 rfl))]
        rw [promoteRow_eq_set _ _ hple]
      · by_cases h2 : r.id ∈ anc
        · rw [if_pos h2]
          have hne : (promoteRow level r).id ≠ page.id := by simpa using h1
          rw [if_neg hne]
          rw [if_pos (List.mem_append_left _ h2)]
        · rw [if_neg h2, if_neg h1]
          have hnS : r.id ∉ anc ++ [page.id] := by
            intro hc
            rcases List.mem_append.1 hc with h3 | h4
            · exact h2 h3
            · exact h1 (by simpa using h4)
          rw [if_neg hnS]
    · -- the fired list
      rw [List.filterMap_append]
      congr 1
      have hlookp : lookupId db page.id = some page := lookupId_of_mem db page hnd hpage
      show (if (page.page_exists == PAGE_EXISTS_UNCERTAIN && !page.isroot) = true
          then [page.id] else []) = List.filterMap (firedAt db) [page.id]
      rw [List.filterMap_cons]
      have hfp : firedAt db page.id =
          if page.page_exists == PAGE_EXISTS_UNCERTAIN && !page.isroot
          then some page.id else none := by
        unfold firedAt
        rw [hlookp]
      rw [hfp]
      by_cases hcond : (page.page_exists == PAGE_EXISTS_UNCERTAIN && !page.isroot) = true
      · rw [if_pos hcond, if_pos hcond]
        rfl
      · rw [if_neg hcond, if_neg hcond]
        rfl
  · exact existsMono_promote db (anc ++ [page.id]) level hmono
      (chain_closed db anc page hnd hchain hpage hdisj)

/-- Witness for C2 at a concrete table: promoting the uncertain page `P`
(id 2) to `HAS_CONTENT` promotes the uncertain root first, and
`on_new_page` fires only for the non-root row 2. -/
theorem set_page_exists_spec_witness :
    set_page_exists exDb2 [1] exPageP 2 =
      .ok ([{ exRoot with page_exists := 2 }, { exPageP with page_exists := 2 }], [2]) := by
  have happ := set_page_exists_spec exDb2 [1] exPageP 2 (by decide)
    (by unfold ExistsMono; decide) ⟨⟨exRoot, by decide, rfl, rfl⟩, rfl⟩ (by decide)
    (by decide) (Or.inr rfl) (by decide)
  exact happ.1.trans (by rfl)

/-! ## C5: `check_existance` -/

theorem isDesc_content_child (db : List Row)
    (hmono : ∀ r ∈ db, ∀ q ∈ db, q.id = r.parent → r.page_exists ≤ q.page_exists)
    (hbound : ∀ r ∈ db, r.page_exists ≤ PAGE_EXISTS_HAS_CONTENT)
    (hup : ∀ r ∈ db, r.hascontent = true → r.page_exists = PAGE_EXISTS_HAS_CONTENT)
    (i : Nat) (s : Row) (hdesc : IsDesc db i s) :
    s.hascontent = true →
      ∃ c ∈ db, c.parent = i ∧ c.page_exists = PAGE_EXISTS_HAS_CONTENT := by
  induction hdesc with
  | child j r hrm hrp =>
    intro hs
    exact ⟨r, hrm, hrp, hup r hrm hs⟩
  | step j c r hcm hcp hd ih =>
    intro hs
    obtain ⟨d, hdm, hdp, hdpe⟩ := ih hs
    have h1 : d.page_exists ≤ c.page_exists := hmono d hdm c hcm hdp.symm
    have h2 : c.page_exists = PAGE_EXISTS_HAS_CONTENT :=
      Nat.le_antisymm (hbound c hcm) (by rw [← hdpe]; exact h1)
    exact ⟨c, hcm, hcp, h2⟩

/-- C5.  `check_existance(page)` decides "the page has content, or has at
least one content-bearing descendant at any depth" — even though the query
only counts *direct* children — because `page_exists` satisfies the
invariants the spec maintains for it: monotone up the tree, bounded by
`HAS_CONTENT`, `HAS_CONTENT` on every content-bearing row, and
`HAS_CONTENT` only where the subtree actually holds content. -/
theorem check_existance_iff (db : List Row) (p : Row)
    (hmono : ∀ r ∈ db, ∀ q ∈ db, q.id = r.parent → r.page_exists ≤ q.page_exists)
    (hbound : ∀ r ∈ db, r.page_exists ≤ PAGE_EXISTS_HAS_CONTENT)
    (hup : ∀ r ∈ db, r.hascontent = true → r.page_exists = PAGE_EXISTS_HAS_CONTENT)
    (hdown : ∀ r ∈ db, r.page_exists = PAGE_EXISTS_HAS_CONTENT →
      r.hascontent = true ∨ ∃ s, IsDesc db r.id s ∧ s.hascontent = true) :
    check_existance db p = true ↔
      (p.hascontent = true ∨ ∃ s, IsDesc db p.id s ∧ s.hascontent = true) := by
  unfold check_existance
  by_cases hpc : p.hascontent = true
  · simp [hpc]
  · rw [if_neg hpc]
    constructor
    · intro h
      have hlen : 0 < (db.filter (fun r =>
          r.parent == p.id && r.page_exists == PAGE_EXISTS_HAS_CONTENT)).length :=
        of_decide_eq_true h
      obtain ⟨c, hcmem⟩ := List.exists_mem_of_length_pos hlen
      have hcf := List.mem_filter.1 hcmem
      have hcond : c.parent = p.id ∧ c.page_exists = PAGE_EXISTS_HAS_CONTENT := by
        have := hcf.2
        simp only [Bool.and_eq_true, beq_iff_eq] at this
        exact this
      rcases hdown c hcf.1 hcond.2 with h1 | ⟨s, hsdesc, hscont⟩
      · exact Or.inr ⟨c, IsDesc.child _ _ hcf.1 hcond.1, h1⟩
      · exact Or.inr ⟨s, IsDesc.step _ _ _ hcf.1 hcond.1 hsdesc, hscont⟩
    · intro h
      rcases h with h1 | ⟨s, hsdesc, hscont⟩
      · exact absurd h1 hpc
      · obtain ⟨c, hcm, hcp, hcpe⟩ :=
          isDesc_content_child db hmono hbound hup p.id s hsdesc hscont
        apply decide_eq_true
        exact List.length_pos_of_mem
          (List.mem_filter.2 ⟨hcm, by simp [hcp, hcpe]⟩)

/-- Witness for C5 at a concrete table: page `P` (no content of its own)
with a content-bearing child is reported existent. -/
theorem check_existance_iff_witness : check_existance exDb5 exP5 = true := by
  have hdown : ∀ r ∈ exDb5, r.page_exists = PAGE_EXISTS_HAS_CONTENT →
      r.hascontent = true ∨ ∃ s, IsDesc exDb5 r.id s ∧ s.hascontent = true := by
    intro r hr _
    simp only [exDb5, List.mem_cons, List.not_mem_nil, or_false] at hr
    rcases hr with h | h
    · subst h
      exact Or.inr ⟨exC5, IsDesc.child _ _ (by simp [exDb5]) rfl, rfl⟩
    · subst h
      exact Or.inl rfl
  exact (check_existance_iff exDb5 exP5 (by decide) (by decide) (by decide) hdown).2
    (Or.inr ⟨exC5, IsDesc.child _ _ (by simp [exDb5]) rfl, rfl⟩)

/-! ## C6: `delete_page` -/

/-- C6.  The `delete_page(page, cleanup)` contract, for any non-root page
whose cached `n_children` agrees with the table: (a) a page with children
that are all `AS_LINK` placeholders is demoted to `AS_LINK` with
`content_etag`, `children_etag`, `ctime` and `mtime` nulled; (b) a page
with no children has its row removed; (c) a delete attempt on a page with
any child whose `page_exists` is not `AS_LINK` raises the assertion error;
(d) with `cleanup=true`, after the deletion the parent row is looked up
and recursively deleted (with `cleanup=true` again) exactly when
`check_existance` denies it — it is content-less and has no content
children. -/
theorem delete_page_spec (fuel : Nat) (db : List Row) (row : Row)
    (hroot : row.isroot = false)
    (hn : row.n_children = (childRows db row.id).length) :
    (childRows db row.id ≠ [] →
      (∀ c ∈ childRows db row.id, c.page_exists = PAGE_EXISTS_AS_LINK) →
      delete_page (fuel + 1) db row false =
        .ok (updateRow db row.id (fun r => { r with page_exists := PAGE_EXISTS_AS_LINK, content_etag := none, ctime := none, mtime := none, children_etag := none }), row)) ∧
    (childRows db row.id = [] →
      delete_page (fuel + 1) db row false =
        .ok (db.filter (fun r => !(r.id == row.id)), row)) ∧
    ((∃ c ∈ childRows db row.id, c.page_exists ≠ PAGE_EXISTS_AS_LINK) →
      ∀ cleanup, delete_page (fuel + 1) db row cleanup =
        .error "Can not delete path with children") ∧
    ((∀ c ∈ childRows db row.id, c.page_exists = PAGE_EXISTS_AS_LINK) →
      ∀ parentRow, row.parent ≠ ROOT_ID →
        lookupId (delete_page_table db row) row.parent = some parentRow →
        (check_existance (delete_page_table db row) parentRow = false →
          delete_page (fuel + 1) db row true =
            delete_page fuel (delete_page_table db row) parentRow true) ∧
        (check_existance (delete_page_table db row) parentRow = true →
          delete_page (fuel + 1) db row true =
            .ok (delete_page_table db row, row))) := by
  have hrootneg : ¬(row.isroot = true) := by simp [hroot]
  have hallTrue : (∀ c ∈ childRows db row.id, c.page_exists = PAGE_EXISTS_AS_LINK) →
      ((childRows db row.id).all (fun r => r.page_exists == PAGE_EXISTS_AS_LINK)) = true := by
    intro hall
    rw [List.all_eq_true]
    intro c hc
    simpa using hall c hc
  refine ⟨?_, ?_, ?_, ?_⟩
  · -- (a) demotion
    intro hne hall
    have hpos : 0 < row.n_children := by
      rw [hn]
      exact List.length_pos.2 hne
    simp only [delete_page]
    rw [if_neg hrootneg]
    rw [if_neg (by simp [hallTrue hall])]
    simp only [Bool.false_and]
    rw [if_neg (by simp)]
    unfold delete_page_table
    rw [if_pos hpos]
  · -- (b) removal
    intro hnil
    have hzero : ¬(0 < row.n_children) := by
      rw [hn, hnil]
      simp
    simp only [delete_page]
    rw [if_neg hrootneg]
    rw [if_neg (by simp [hzero])]
    simp only [Bool.false_and]
    rw [if_neg (by simp)]
    unfold delete_page_table
    rw [if_neg hzero]
  · -- (c) the assertion
    intro hbad cleanup
    obtain ⟨c, hc, hcne⟩ := hbad
    have hallf : ((childRows db row.id).all (fun r => r.page_exists == PAGE_EXISTS_AS_LINK)) = false := by
      rw [List.all_eq_false]
      exact ⟨c, hc, by simpa using hcne⟩
    have hpos : 0 < row.n_children := by
      rw [hn]
      exact List.length_pos.2 (List.ne_nil_of_mem hc)
    simp only [delete_page]
    rw [if_neg hrootneg]
    rw [if_pos (by simp [hallf, hpos])]
  · -- (d) cleanup recursion
    intro hall parentRow hpar hlook
    have hparb : (row.parent == ROOT_ID) = false := by
      simpa using hpar
    constructor
    · intro hchk
      simp only [delete_page]
      rw [if_neg hrootneg]
      rw [if_neg (by simp [hallTrue hall])]
      rw [if_pos (by simp [hparb])]
      rw [hlook]
      simp only [hchk, Bool.false_eq_true, if_false]
    · intro hchk
      simp only [delete_page]
      rw [if_neg hrootneg]
      rw [if_neg (by simp [hallTrue hall])]
      rw [if_pos (by simp [hparb])]
      rw [hlook]
      simp only [hchk, if_true]

/-- Witness for C6 at a concrete table: deleting page `A`, whose two
children are `AS_LINK` placeholders, demotes its row to a placeholder with
nulled etags and timestamps. -/
theorem delete_page_spec_witness :
    delete_page 1 exDb6 exA6 false =
      .ok ([{ exA6 with page_exists := 1, content_etag := none, ctime := none, mtime := none, children_etag := none }, exB6, exC6], exA6) := by
  have happ := (delete_page_spec 0 exDb6 exA6 (by decide) (by decide)).1
    (by decide) (by decide)
  exact happ.trans (by rfl)

/-! ## C10: `Index.on_delete_page` on a missing path -/

/-- C10.  For a path with no row in the `pages` table,
`Index.on_delete_page` swallows the `IndexNotFoundError` from the lookup
and returns at once: no error escapes, no table is modified (the returned
table is the input table), and neither the `before_commit` link resolution
nor the `after_commit` signal drain runs. -/
theorem on_delete_page_missing (layout : Layout) (fuel : Nat) (db : List Row)
    (path : List String)
    (h : lookup_by_pagename db path = none) :
    on_delete_page layout fuel db path = .ok (db, false, false) := by
  unfold on_delete_page
  rw [h]

/-- Witness for C10: deleting a path that was never indexed leaves an
empty table untouched, with neither commit hook run. -/
theorem on_delete_page_missing_witness :
    on_delete_page exLayout 3 [] ["A"] = .ok ([], false, false) :=
  on_delete_page_missing exLayout 3 [] ["A"] rfl

end ZimIndex
